import Mathlib

/-!
Shallow embedding of the lead-harvesting pipelines of the `bots` repository,
with theorems checking the natural-language specification against the code.

The embedded functions are translated from:
  * `justin coble/main.py`                    (`run_lead_processing`)
  * `justin coble/operators/sheet_ops.py`     (`appendToSheet`,
                                               `getLastProcessedFileNumberBySource`)
  * `justin coble/operators/brockandscott_ops.py` (address parsing in
                                               `harvestBrockSales`)
  * `justin coble/operators/servicelink_auction_ops.py`
                                              (`harvestServiceLinkAuction`)
  * `operators/realestate_ops.py`             (`_split_owner_hard`,
                                               `_PropStreamClient.get_estimates`)

Conventions: Python strings are Lean `String`s (all inputs of interest are
ASCII); Python float amounts are modelled as `Rat` (the decisions proved here
compare amounts around 100000, where the float/rational distinction is
inert); browser/page observations are passed in as explicit environment
arguments; a Python function that may raise is modelled with an explicit
outcome type.
-/

set_option autoImplicit false

namespace LeadBots

/-! ### Python string primitives (ASCII semantics) -/

/-- Python whitespace, as used by `str.strip` / `str.split` / `\s`. -/
def isPyWs (c : Char) : Bool :=
  c == ' ' || c == '\t' || c == '\n' || c == '\r' ||
  c == Char.ofNat 11 || c == Char.ofNat 12

/-- Python `str.strip()`. -/
def pyStrip (s : String) : String :=
  String.mk (((s.toList.dropWhile isPyWs).reverse.dropWhile isPyWs).reverse)

/-- Python `str.upper()` (ASCII). -/
def pyUpper (s : String) : String :=
  String.mk (s.toList.map Char.toUpper)

/-- Helper for `pyTitle`: the flag records whether the previous character was
alphabetic (cased). -/
def pyTitleAux : Bool → List Char → List Char
  | _, [] => []
  | prevCased, c :: cs =>
    let cased := c.isAlpha
    let c' := if cased then (if prevCased then c.toLower else c.toUpper) else c
    c' :: pyTitleAux cased cs

/-- Python `str.title()` (ASCII). -/
def pyTitle (s : String) : String :=
  String.mk (pyTitleAux false s.toList)

/-- Python `needle in hay` substring test. -/
def containsSub : List Char → List Char → Bool
  | hay, needle =>
    if needle.isPrefixOf hay then true
    else
      match hay with
      | [] => false
      | _ :: t => containsSub t needle

/-- Helper for `pySplitWs`: `acc` is the current token, reversed. -/
def pySplitWsAux : List Char → List Char → List (List Char)
  | [], acc => if acc.isEmpty then [] else [acc.reverse]
  | c :: cs, acc =>
    if isPyWs c then
      if acc.isEmpty then pySplitWsAux cs [] else acc.reverse :: pySplitWsAux cs []
    else pySplitWsAux cs (c :: acc)

/-- Python `str.split()` with no argument: split on whitespace runs, dropping
empty tokens. -/
def pySplitWs (cs : List Char) : List (List Char) :=
  pySplitWsAux cs []

/-- Helper for `splitRuns2`: `acc` is the current token reversed, `ws` the
pending not-yet-classified whitespace run, reversed. -/
def splitRuns2Aux (acc ws : List Char) : List Char → List (List Char)
  | [] => if ws.length ≥ 2 then [acc.reverse, []] else [(ws ++ acc).reverse]
  | c :: cs =>
    if isPyWs c then splitRuns2Aux acc (c :: ws) cs
    else
      if ws.length ≥ 2 then acc.reverse :: splitRuns2Aux [c] [] cs
      else splitRuns2Aux (c :: (ws ++ acc)) [] cs

/-- Python `re.split(r"\s{2,}", s)`: split on maximal whitespace runs of
length at least two; single whitespace characters stay inside tokens. -/
def splitRuns2 (cs : List Char) : List (List Char) :=
  splitRuns2Aux [] [] cs

/-- Python `s.rsplit(" ", 1)`: split at the last literal space, if any. -/
def pyRsplitSpace1 (cs : List Char) : List (List Char) :=
  let r := cs.reverse
  let tl := r.takeWhile (fun c => c ≠ ' ')
  match r.dropWhile (fun c => c ≠ ' ') with
  | [] => [cs]
  | _ :: before => [before.reverse, tl.reverse]

/-- Python `s.split(",", 1)`: text before the first comma, and (when a comma
exists) the remainder after it. -/
def splitCommaOnce : List Char → List Char × Option (List Char)
  | [] => ([], none)
  | c :: cs =>
    if c = ',' then ([], some cs)
    else
      match splitCommaOnce cs with
      | (before, after) => (c :: before, after)

/-- Helper for `splitOnComma`: `acc` is the current segment, reversed. -/
def splitOnCommaAux : List Char → List Char → List (List Char)
  | [], acc => [acc.reverse]
  | c :: cs, acc =>
    if c = ',' then acc.reverse :: splitOnCommaAux cs []
    else splitOnCommaAux cs (c :: acc)

/-- Python `s.split(",")`: every comma separates, empty segments kept. -/
def splitOnComma (cs : List Char) : List (List Char) :=
  splitOnCommaAux cs []

/-- Python `" ".join(tokens)`. -/
def joinSpace : List (List Char) → List Char
  | [] => []
  | [t] => t
  | t :: ts => t ++ ' ' :: joinSpace ts

/-! ### `_split_owner_hard` (operators/realestate_ops.py, lines 63-112) -/

/-- `_SUFFIXES` of realestate_ops.py. -/
def suffixTokens : List String := ["JR", "SR", "II", "III", "IV", "V"]

/-- `_ENTITY_TOKENS` of realestate_ops.py (a Python set; only membership is
used, so order is irrelevant). -/
def entityTokens : List String :=
  ["LLC", "L.L.C", "INC", "TRUST", "LP", "LLP", "CORP", "CO", "COMPANY"]

/-- Does the owner-separator pattern `(?:&|AND)\s+` (case-insensitive) match
at the head of `cs`, after the leading whitespace run was consumed? -/
def sepAfterWs : List Char → Bool
  | '&' :: d :: _ => isPyWs d
  | a :: n :: d :: e :: _ =>
    (a == 'A' || a == 'a') && (n == 'N' || n == 'n') && (d == 'D' || d == 'd')
      && isPyWs e
  | _ => false

/-- Does `re` find a match of `\s+(?:&|AND)\s+` (IGNORECASE) starting at the
head of `cs`? -/
def ownerSepAt (cs : List Char) : Bool :=
  match cs with
  | c :: rest => isPyWs c && sepAfterWs (rest.dropWhile isPyWs)
  | [] => false

/-- The text before the first match of `\s+(?:&|AND)\s+` — Python
`re.split(r"\s+(?:&|AND)\s+", n, flags=re.IGNORECASE)[0]`. -/
def firstOwnerSeg : List Char → List Char
  | [] => []
  | c :: cs => if ownerSepAt (c :: cs) then [] else c :: firstOwnerSeg cs

/-- `_split_owner_hard` of operators/realestate_ops.py (lines 63-112),
returning `(first, last)`. -/
def splitOwnerHard (name : String) : String × String :=
  if name = "" then ("", "")
  else
    let n := pyStrip name
    if n = "" then ("", "")
    else
      -- Take the first owner if multiple
      let firstOwner := pyStrip (String.mk (firstOwnerSeg n.toList))
      -- Entity check (substring membership of any entity token)
      let uAll := pyUpper firstOwner
      if entityTokens.any (fun tok => containsSub uAll.toList tok.toList) then
        ("", "")
      else if firstOwner.toList.contains ',' then
        -- Comma form: "LAST, FIRST ..." -> last, first
        let pr := splitCommaOnce firstOwner.toList
        let last := pyStrip (String.mk pr.1)
        let rest :=
          match pr.2 with
          | some a => pyStrip (String.mk a)
          | none => ""
        let restTokens := (pySplitWs rest.toList).filter
          (fun t => !(suffixTokens.contains (pyUpper (String.mk t))))
        let first :=
          match restTokens with
          | [] => ""
          | t :: _ => String.mk t
        (first, last)
      else
        match pySplitWs firstOwner.toList with
        | [] => ("", "")   -- unreachable: firstOwner is nonempty after strip
        | [t] => ("", String.mk t)  -- single token: last name only
        | t0 :: rest =>
          if firstOwner = pyUpper firstOwner then
            -- all caps: "LAST FIRST MI" order
            let restTokens := rest.filter
              (fun t => !(suffixTokens.contains (pyUpper (String.mk t))))
            let first :=
              match restTokens with
              | [] => ""
              | t :: _ => String.mk t
            (pyTitle first, pyTitle (String.mk t0))
          else
            -- default: "First Last ..."
            let restTokens := rest.filter
              (fun t => !(suffixTokens.contains (pyUpper (String.mk t))))
            let last :=
              if restTokens.isEmpty then "" else String.mk (joinSpace restTokens)
            (String.mk t0, last)

/-! ### Address parsing in `harvestBrockSales`
(justin coble/operators/brockandscott_ops.py, lines 30-44) -/

/-- The address-parsing fallback of `harvestBrockSales`, returning
`(property, city, zip)`. -/
def brockParseAddress (addressFull : String) : String × String × String :=
  let parts := splitOnComma addressFull.toList
  let addrCity := pyStrip (String.mk (parts.headD []))
  let stateZip :=
    match parts with
    | _ :: p1 :: _ => pyStrip (String.mk p1)
    | _ => ""
  let pc := splitRuns2 addrCity.toList
  let propCity :=
    match pc with
    | p0 :: p1 :: _ => (pyStrip (String.mk p0), pyStrip (String.mk p1))
    | _ =>
      match pyRsplitSpace1 addrCity.toList with
      | [t0, t1] => (pyStrip (String.mk t0), pyStrip (String.mk t1))
      | [t] => (pyStrip (String.mk t), "")
      | _ => ("", "")   -- unreachable: rsplit yields one or two pieces
  let zipCode :=
    if stateZip ≠ "" then
      match (pySplitWs stateZip.toList).getLast? with
      | some t => String.mk t
      | none => ""      -- unreachable: stateZip is nonempty after strip
    else ""
  (propCity.1, propCity.2, zipCode)

/-! ### Data model of the orchestrator (justin coble/main.py) -/

/-- One scraped lead, as produced by every harvester (`saleDate`, `fileNumber`,
`property`, `city`, `zip`, `county`, `bid`). -/
structure Lead where
  saleDate : String
  fileNumber : String
  property : String
  city : String
  zip : String
  county : String
  bid : String
deriving DecidableEq, Repr

/-- Outcome of one call to `fetchPropStreamEstimates`: either the Python call
raises, or it returns the 4-tuple `(equity, est_val, firstName, lastName)`.
Amounts are modelled as `Rat`. -/
inductive LookupOutcome where
  | raised (msg : String)
  | ok (equity estVal : Rat) (firstName lastName : String)
deriving DecidableEq, Repr

/-- What the `try`/`except` of main.py lines 96-104 extracts from a lookup
outcome: `equity, firstName, lastName` and the `lookup_failed` flag. -/
structure LookupParts where
  equity : Rat
  firstName : String
  lastName : String
  lookupFailed : Bool
deriving DecidableEq, Repr

/-- main.py lines 96-104: a normal return passes the values through; an
exception yields `equity=0.0, firstName="", lastName=""` and
`lookup_failed=True`. -/
def lookupParts : LookupOutcome → LookupParts
  | .raised _ => ⟨0, "", "", true⟩
  | .ok equity _ firstName lastName => ⟨equity, firstName, lastName, false⟩

/-- The in-memory record `rec` of main.py (lines 81-93) after attachment of
lookup results; `estValue` is absent (`none`) until attached at line 108. -/
structure LeadRec where
  saleDate : String
  fileNumber : String
  address : String
  city : String
  zip : String
  county : String
  bid : String
  source : String
  firstName : String
  lastName : String
  error : String
  estValue : Option Rat
deriving DecidableEq, Repr

/-- main.py lines 81-93 and 103: the fresh record for the current lead; its
`error` field is set to "Try again" when the current lead's own lookup raised
(line 103). -/
def mkRec (name : String) (lead : Lead) (lookupFailed : Bool) : LeadRec :=
  { saleDate := lead.saleDate
    fileNumber := lead.fileNumber
    address := lead.property
    city := lead.city
    zip := lead.zip
    county := lead.county
    bid := lead.bid
    source := name
    firstName := ""
    lastName := ""
    error := if lookupFailed then "Try again" else ""
    estValue := none }

/-- main.py lines 107-112: attach the current iteration's lookup results to
the buffered previous record. -/
def attachResults (p : LeadRec) (parts : LookupParts) : LeadRec :=
  { p with
    estValue := some parts.equity
    firstName := parts.firstName
    lastName := parts.lastName
    error := if parts.lookupFailed then "Try again" else p.error }

/-- main.py lines 114-123: the commit decision for the buffered record —
append unconditionally when `error` is non-empty, otherwise exactly when
`estValue >= 100_000`. (`estValue` is always present by the time the decision
runs; the `none` branch is unreachable.) -/
def shouldCommit (r : LeadRec) : Bool :=
  if r.error ≠ "" then true
  else
    match r.estValue with
    | some v => v ≥ 100000
    | none => false

/-- The per-lead loop of `run_lead_processing` (main.py lines 75-127) for one
source: `prev` is the buffered record `prev_rec`; the returned list contains,
in order, every record passed to `appendToSheet`. The final buffered record
is dropped when the list of leads is exhausted. -/
def processLoop (enrich : String → String → String → LookupOutcome)
    (name : String) : Option LeadRec → List Lead → List LeadRec
  | _, [] => []
  | prev, lead :: rest =>
    let parts := lookupParts (enrich lead.property lead.city lead.zip)
    let r := mkRec name lead parts.lookupFailed
    match prev with
    | none => processLoop enrich name (some r) rest
    | some p =>
      let p' := attachResults p parts
      (if shouldCommit p' then [p'] else []) ++ processLoop enrich name (some r) rest

/-- One source's pass of `run_lead_processing` after resume filtering: the
records committed to the sheet, in order. -/
def processSource (enrich : String → String → String → LookupOutcome)
    (name : String) (leads : List Lead) : List LeadRec :=
  processLoop enrich name none leads

/-! ### Sheet operations (justin coble/operators/sheet_ops.py) -/

/-- One cell of an appended row: Google Sheets receives strings for the text
fields and the raw number for `estValue`. -/
inductive Cell where
  | str (s : String)
  | num (v : Rat)
deriving DecidableEq, Repr

/-- sheet_ops.py lines 61-74: the row built by `appendToSheet` from a record.
A missing `estValue` renders as `""` (`record.get("estValue", "")`). -/
def appendRow (r : LeadRec) : List Cell :=
  [ .str r.saleDate,
    .str r.firstName,
    .str r.lastName,
    .str r.fileNumber,
    .str r.address,
    .str r.city,
    .str r.zip,
    .str r.county,
    .str r.bid,
    (match r.estValue with
     | some v => Cell.num v
     | none => Cell.str ""),
    .str r.source,
    .str r.error ]

/-- sheet_ops.py lines 96-123 (`getLastProcessedFileNumberBySource`): the
file number (column D) of the last sheet row whose source column (K) matches,
if any. The sheet is modelled as the list of committed records, in append
order. -/
def getLastProcessedFileNumberBySource (source : String)
    (sheet : List LeadRec) : Option String :=
  ((sheet.filter (fun r => r.source = source)).map (fun r => r.fileNumber)).getLast?

/-- main.py line 66: the first index whose `fileNumber` equals `last`;
returns the suffix after it (`leads[idx+1:]`), or `none` on `StopIteration`. -/
def resumeAfterMatch (f : String) : List Lead → Option (List Lead)
  | [] => none
  | l :: ls => if l.fileNumber = f then some ls else resumeAfterMatch f ls

/-- main.py lines 64-70: resume filtering. `if last:` is Python truthiness,
so an empty-string file number disables resumption exactly like `None`. -/
def resumeFilter (last : Option String) (leads : List Lead) : List Lead :=
  match last with
  | none => leads
  | some f =>
    if f = "" then leads
    else
      match resumeAfterMatch f leads with
      | some rest => rest
      | none => leads

/-- One full pass of `run_lead_processing` for one source against a sheet
state: read the resume point, filter the scraped leads, process them, and
append the committed records. Returns the new sheet state. -/
def runSource (enrich : String → String → String → LookupOutcome)
    (name : String) (sheet : List LeadRec) (leads : List Lead) : List LeadRec :=
  let last := getLastProcessedFileNumberBySource name sheet
  sheet ++ processSource enrich name (resumeFilter last leads)

/-! ### `appendToSheet` retry control flow (sheet_ops.py lines 76-94) -/

/-- Outcome of one `values().append(...).execute()` call: success, or a
`RefreshError` (auth expiry). Other exceptions would propagate unchanged and
are outside this claim. -/
inductive AppendAttempt where
  | ok
  | refreshError
deriving DecidableEq, Repr

/-- How `appendToSheet` ends: returning `True`, or `sys.exit(1)`. -/
inductive AppendEnd where
  | success
  | fatalExit
deriving DecidableEq, Repr

/-- Observable trace of one `appendToSheet` call: how it ended, how many
append attempts ran, whether `_ensure_authenticated` ran, and whether the
service was rebuilt (`_build_service`). -/
structure AppendTrace where
  result : AppendEnd
  attempts : Nat
  reauthed : Bool
  rebuilt : Bool
deriving DecidableEq, Repr

/-- sheet_ops.py lines 76-94: the two-attempt loop of `appendToSheet`.
`first`/`second` are the outcomes the Sheets service would give the two
append calls; `reauthOk` is whether `_ensure_authenticated` would succeed. -/
def appendToSheet (first second : AppendAttempt) (reauthOk : Bool) : AppendTrace :=
  match first with
  | .ok => ⟨.success, 1, false, false⟩
  | .refreshError =>
    if reauthOk then
      match second with
      | .ok => ⟨.success, 2, true, true⟩
      | .refreshError => ⟨.fatalExit, 2, true, true⟩
    else ⟨.fatalExit, 1, true, false⟩

/-! ### `_PropStreamClient.get_estimates` (operators/realestate_ops.py,
lines 539-598) -/

/-- What the rendered page yields for one search attempt with the given
(address, city, zip) arguments: the parsed equity (`None` when both equity
extraction strategies fail) and the owner text (`""` when none is found). -/
abbrev PageEnv := String → String → String → Option Rat × String

/-- The attempt loop of `get_estimates` (lines 549-588): carry the best
equity and owner seen so far; break as soon as either is present. -/
def geLoop (env : PageEnv) : List (String × String × String) →
    Option Rat → String → Option Rat × String
  | [], equity, owner => (equity, owner)
  | (a, c, z) :: rest, equity, owner =>
    let obs := env a c z
    let equity' :=
      match obs.1 with
      | some v => some v
      | none => equity
    let owner' := if obs.2 ≠ "" then obs.2 else owner
    if equity'.isSome || owner' ≠ "" then (equity', owner')
    else geLoop env rest equity' owner'

/-- `get_estimates` (lines 539-598): three progressively looser attempts;
a missing equity defaults to `0.0`; `est_val` is never assigned and is
returned as `0.0`; the owner text goes through `_split_owner_hard`. -/
def get_estimates (env : PageEnv) (address city zip_code : String) :
    Rat × Rat × String × String :=
  let attempts := [(address, city, zip_code), (address, city, ""), (address, "", "")]
  let eo := geLoop env attempts none ""
  let equity :=
    match eo.1 with
    | some v => v
    | none => 0
  let fl := splitOwnerHard eo.2
  (equity, 0, fl.1, fl.2)

/-- The orchestrator's enrichment step for one lead (main.py lines 96-104):
invoke the lookup on the lead's address/city/zip and fold the outcome. -/
def leadLookup (fetch : String → String → String → LookupOutcome)
    (lead : Lead) : LookupParts :=
  lookupParts (fetch lead.property lead.city lead.zip)

/-! ### `harvestServiceLinkAuction`
(justin coble/operators/servicelink_auction_ops.py) -/

/-- `_normalize` (line 107): `strip().upper()`. -/
def slNormalize (s : String) : String :=
  pyUpper (pyStrip s)

/-- `_key_for` (lines 111-115): composite key in `prop_city_zip` mode, plain
normalized street otherwise. -/
def slKeyFor (mode : String) (lead : Lead) : String :=
  if mode = "prop_city_zip" then
    slNormalize (lead.property ++ "|" ++ lead.city ++ "|" ++ lead.zip)
  else slNormalize lead.property

/-- Result of scanning the leads of one page (lines 214-226 / 273-285): the
new leads appended from this page, the consecutive-seen counter afterwards,
and whether the early-stop return fired. -/
structure SLPageStep where
  newLeads : List Lead
  consec : Nat
  stopped : Bool
deriving DecidableEq, Repr

/-- The per-lead filter loop run on each scraped page (identical at lines
214-226 and 273-285): a key already in the ledger bumps `consec_seen` and, at
the threshold, returns what was collected; an unknown key resets the counter
and collects the lead. -/
def slLeadLoop (T : Nat) (haveExisting : Bool) (existing : List String)
    (mode : String) : List Lead → Nat → SLPageStep
  | [], c => ⟨[], c, false⟩
  | l :: ls, c =>
    if haveExisting && existing.contains (slKeyFor mode l) then
      if c + 1 ≥ T then ⟨[], c + 1, true⟩
      else slLeadLoop T haveExisting existing mode ls (c + 1)
    else
      let step := slLeadLoop T haveExisting existing mode ls 0
      ⟨l :: step.newLeads, step.consec, step.stopped⟩

/-- The page loop of `harvestServiceLinkAuction` (lines 207-287): each page's
leads run through the filter loop; an early stop discards every remaining
page. Pagination mechanics (next-page links, `MAX_PAGES`, empty pages) only
determine which pages appear in the input list. -/
def slPageLoop (T : Nat) (haveExisting : Bool) (existing : List String)
    (mode : String) : List (List Lead) → Nat → List Lead
  | [], _ => []
  | pg :: pgs, c =>
    let step := slLeadLoop T haveExisting existing mode pg c
    if step.stopped then step.newLeads
    else step.newLeads ++ slPageLoop T haveExisting existing mode pgs step.consec

/-- `harvestServiceLinkAuction` (lines 188-290): `existing? = none` models a
ledger that could not be loaded (`_get_existing_keys_from_sheet` returning
`None`), in which case `have_existing` is false and no early stop occurs. -/
def harvestServiceLinkAuction (T : Nat) (mode : String)
    (existing? : Option (List String)) (pages : List (List Lead)) : List Lead :=
  slPageLoop T existing?.isSome (existing?.getD []) mode pages 0

/-! ### Derived forms used to state the claims -/

/-- Adjacent pairs `(x_i, x_(i+1))` of a list: the pairs the one-step-delayed
commit pattern of `run_lead_processing` evaluates. -/
def adjPairs {α : Type} : List α → List (α × α)
  | [] => []
  | [_] => []
  | a :: b :: t => (a, b) :: adjPairs (b :: t)

/-- The commit decision for one adjacent pair `(lead i, lead i+1)`: the
buffered record of lead `i` receives the lookup results for lead `i+1` and is
then filtered. This is the derived one-pair form of the loop body of
main.py lines 95-125, used to characterise `processSource`. -/
def commitStep (enrich : String → String → String → LookupOutcome)
    (name : String) (pq : Lead × Lead) : Option LeadRec :=
  let p' := attachResults (mkRec name pq.1 (leadLookup enrich pq.1).lookupFailed)
    (leadLookup enrich pq.2)
  if shouldCommit p' then some p' else none

/-- The column order the specification asserts for Sink rows (spec §6):
sale date, file number, street address, city, zip, county, bid, equity
estimate, owner first/last name, source identifier, error flag. -/
def claimedRowOrder (r : LeadRec) : List Cell :=
  [ .str r.saleDate,
    .str r.fileNumber,
    .str r.address,
    .str r.city,
    .str r.zip,
    .str r.county,
    .str r.bid,
    (match r.estValue with
     | some v => Cell.num v
     | none => Cell.str ""),
    .str r.firstName,
    .str r.lastName,
    .str r.source,
    .str r.error ]

/-- Flat form of the ServiceLink consecutive-seen filter over the
concatenated lead stream: collect unknown leads, reset the counter on them,
and stop (discarding the rest) once `T` consecutive known leads are seen. -/
def slScan (T : Nat) (known : Lead → Bool) : Nat → List Lead → List Lead
  | _, [] => []
  | c, l :: ls =>
    if known l then
      if c + 1 ≥ T then [] else slScan T known (c + 1) ls
    else l :: slScan T known 0 ls

/-- The consecutive-seen counter after scanning a lead list without hitting
the threshold (`none` when the early stop fires inside the list). -/
def slCounter (T : Nat) (known : Lead → Bool) : Nat → List Lead → Option Nat
  | c, [] => some c
  | c, l :: ls =>
    if known l then
      if c + 1 ≥ T then none else slCounter T known (c + 1) ls
    else slCounter T known 0 ls

/-! ### Concrete fixtures for witnesses and counterexamples -/

/-- A concrete scraped lead. -/
def leadA : Lead :=
  ⟨"1/1/2025", "FA", "100 Oak St", "Atlanta", "30301", "Fulton", "$100"⟩

/-- A second concrete scraped lead. -/
def leadB : Lead :=
  ⟨"1/2/2025", "FB", "200 Pine St", "Macon", "31201", "Bibb", "$200"⟩

/-- A concrete lead with an empty file number (as every ServiceLink lead
has, servicelink_auction_ops.py line 84). -/
def leadE : Lead :=
  ⟨"1/3/2025", "", "300 Elm St", "Savannah", "31401", "Chatham", "$300"⟩

/-- A deterministic enrichment environment: every lookup returns equity
200000 with owner Jane Doe. -/
def enrichHigh : String → String → String → LookupOutcome :=
  fun _ _ _ => LookupOutcome.ok 200000 0 "Jane" "Doe"

/-- The record committed for `leadA` when `leadB` is scraped right after it
under `enrichHigh`. -/
def recAB : LeadRec :=
  attachResults (mkRec "Brock & Scott" leadA false) (leadLookup enrichHigh leadB)

/-- A page environment on which every search attempt fails to parse an
equity and finds no owner text. -/
def pageEnvAllFail : PageEnv := fun _ _ _ => (none, "")

/-- `fetchPropStreamEstimates` as the orchestrator sees it when the lookup
does not raise but nothing parses: a normal return of
`get_estimates` over the all-failing page environment. -/
def fetchParseFail : String → String → String → LookupOutcome := fun a c z =>
  match get_estimates pageEnvAllFail a c z with
  | (eq, ev, fn, ln) => .ok eq ev fn ln

/-- An all-blank record, used as the base of concrete decision fixtures. -/
def baseRec : LeadRec :=
  ⟨"", "", "", "", "", "", "", "", "", "", "", none⟩

/-- Fixture: no error, equity 99999.99, just below the threshold. -/
def recBelowThreshold : LeadRec :=
  { baseRec with estValue := some (mkRat 9999999 100) }

/-- Fixture: no error, equity exactly 100000.00. -/
def recAtThreshold : LeadRec :=
  { baseRec with estValue := some (mkRat 10000000 100) }

/-- Fixture: lookup error recorded, equity 0. -/
def recErrorZero : LeadRec :=
  { baseRec with error := "timeout", estValue := some (0 : Rat) }

/-- Ledger keys for the ServiceLink witness run: `leadA` and `leadB` are
already known. -/
def slExisting : List String := ["100 OAK ST", "200 PINE ST"]

/-- Two scraped ServiceLink pages for the witness run. -/
def slPages : List (List Lead) := [[leadE, leadA], [leadB, leadE]]

/-! ## Helper lemmas -/

theorem processLoop_some (enrich : String → String → String → LookupOutcome)
    (name : String) (leads : List Lead) : ∀ (p : Lead),
    processLoop enrich name
      (some (mkRec name p (leadLookup enrich p).lookupFailed)) leads
      = (adjPairs (p :: leads)).filterMap (commitStep enrich name) := by
  induction leads with
  | nil => intro p; simp [processLoop, adjPairs]
  | cons lead rest ih =>
    intro p
    simp only [processLoop, adjPairs, List.filterMap_cons, commitStep, leadLookup]
    split
    · simpa [leadLookup] using ih lead
    · simpa [leadLookup] using ih lead

/-- `processSource` commits exactly the records obtained by evaluating the
one-pair commit decision on each adjacent pair of the lead list. -/
theorem processSource_eq (enrich : String → String → String → LookupOutcome)
    (name : String) (leads : List Lead) :
    processSource enrich name leads
      = (adjPairs leads).filterMap (commitStep enrich name) := by
  cases leads with
  | nil => rfl
  | cons l rest =>
    show processLoop enrich name none (l :: rest) = _
    simp only [processLoop, leadLookup]
    exact processLoop_some enrich name rest l

theorem adjPairs_mem_split {α : Type} (xs : List α) (p : α × α)
    (hp : p ∈ adjPairs xs) : ∃ pre post, xs = pre ++ p.1 :: p.2 :: post := by
  induction xs with
  | nil => simp [adjPairs] at hp
  | cons a xs ih =>
    cases xs with
    | nil => simp [adjPairs] at hp
    | cons b t =>
      rw [adjPairs] at hp
      rcases List.mem_cons.mp hp with h | h
      · subst h; exact ⟨[], t, rfl⟩
      · obtain ⟨pre, post, hs⟩ := ih h
        exact ⟨a :: pre, post, by simp [hs]⟩

theorem commitStep_some_proj (enrich : String → String → String → LookupOutcome)
    (name : String) (pq : Lead × Lead) (r : LeadRec)
    (h : commitStep enrich name pq = some r) :
    r.fileNumber = pq.1.fileNumber ∧ r.saleDate = pq.1.saleDate ∧
    r.address = pq.1.property ∧ r.source = name ∧
    r.estValue = some (leadLookup enrich pq.2).equity ∧
    r.firstName = (leadLookup enrich pq.2).firstName ∧
    r.lastName = (leadLookup enrich pq.2).lastName ∧
    ((leadLookup enrich pq.2).lookupFailed = true → r.error = "Try again") := by
  simp only [commitStep] at h
  split at h
  · cases h
    refine ⟨rfl, rfl, rfl, rfl, rfl, rfl, rfl, ?_⟩
    intro hf
    simp [attachResults, hf]
  · cases h

theorem slLeadLoop_scan (T : Nat) (h : Bool) (ex : List String) (mode : String)
    (pg : List Lead) : ∀ (c : Nat) (ys : List Lead),
    slScan T (fun l => h && ex.contains (slKeyFor mode l)) c (pg ++ ys)
      = (if (slLeadLoop T h ex mode pg c).stopped then
          (slLeadLoop T h ex mode pg c).newLeads
         else (slLeadLoop T h ex mode pg c).newLeads
           ++ slScan T (fun l => h && ex.contains (slKeyFor mode l))
                (slLeadLoop T h ex mode pg c).consec ys) := by
  induction pg with
  | nil => intro c ys; simp [slLeadLoop, slScan]
  | cons l ls ih =>
    intro c ys
    simp only [List.cons_append, List.append_eq, slScan, slLeadLoop]
    by_cases hk : (h && ex.contains (slKeyFor mode l)) = true
    · simp only [hk, eq_self_iff_true, if_true]
      by_cases ht : c + 1 ≥ T
      · simp [ht]
      · simp only [if_neg ht]
        exact ih (c + 1) ys
    · rw [Bool.not_eq_true] at hk
      simp only [hk, Bool.false_eq_true, if_false]
      rw [ih 0 ys]
      by_cases hs : (slLeadLoop T h ex mode ls 0).stopped = true
      · simp [hs]
      · simp [hs]

theorem slPageLoop_scan (T : Nat) (h : Bool) (ex : List String) (mode : String) :
    ∀ (pages : List (List Lead)) (c : Nat),
    slPageLoop T h ex mode pages c
      = slScan T (fun l => h && ex.contains (slKeyFor mode l)) c pages.flatten := by
  intro pages
  induction pages with
  | nil => intro c; simp [slPageLoop, slScan]
  | cons pg pgs ih =>
    intro c
    rw [List.flatten_cons, slLeadLoop_scan T h ex mode pg c pgs.flatten]
    by_cases hs : (slLeadLoop T h ex mode pg c).stopped <;>
      simp [slPageLoop, hs, ih]

theorem slScan_const_false (T : Nat) (known : Lead → Bool)
    (hk : ∀ l, known l = false) : ∀ (c : Nat) (ls : List Lead),
    slScan T known c ls = ls := by
  intro c ls
  induction ls generalizing c with
  | nil => rfl
  | cons l t ih => simp [slScan, hk l, ih]

theorem slScan_append_of_counter (T : Nat) (known : Lead → Bool) :
    ∀ (pre : List Lead) (c c' : Nat), slCounter T known c pre = some c' →
    ∀ zs, slScan T known c (pre ++ zs)
      = pre.filter (fun l => !known l) ++ slScan T known c' zs := by
  intro pre
  induction pre with
  | nil =>
    intro c c' hc zs
    simp [slCounter] at hc
    subst hc
    rfl
  | cons l ls ih =>
    intro c c' hc zs
    by_cases hk : known l = true
    · by_cases ht : c + 1 ≥ T
      · simp [slCounter, hk, ht] at hc
      · simp only [slCounter, hk, if_true, if_neg ht] at hc
        simp [slScan, List.filter_cons, hk, ht, ih (c + 1) c' hc zs]
    · simp only [slCounter, hk, if_false, Bool.not_eq_true] at hc
      rw [Bool.not_eq_true] at hk
      simp [slScan, List.filter_cons, hk, ih 0 c' (by simpa [hk] using hc) zs]

theorem slScan_run_stop (T : Nat) (known : Lead → Bool) :
    ∀ (run : List Lead) (c : Nat) (rest : List Lead), run ≠ [] →
    (∀ l ∈ run, known l = true) → c + run.length = T →
    slScan T known c (run ++ rest) = [] := by
  intro run
  induction run with
  | nil => intro c rest hne; exact absurd rfl hne
  | cons r rs ih =>
    intro c rest _ hall hlen
    have hr : known r = true := hall r (by simp)
    cases rs with
    | nil =>
      have : c + 1 ≥ T := by simp at hlen; omega
      simp [slScan, hr, this]
    | cons r2 rs2 =>
      have hlt : ¬ c + 1 ≥ T := by simp at hlen ⊢; omega
      simp only [List.cons_append, slScan, hr, if_true, if_neg hlt]
      exact ih (c + 1) rest (by simp)
        (fun l hl => hall l (List.mem_cons_of_mem r hl))
        (by simp at hlen ⊢; omega)

theorem getLast?_map_fn {α β : Type} (g : α → β) :
    ∀ xs : List α, (xs.map g).getLast? = (xs.getLast?).map g
  | [] => rfl
  | [_] => rfl
  | x :: y :: t => by
    rw [List.map_cons, List.map_cons, List.getLast?_cons_cons,
      List.getLast?_cons_cons, ← List.map_cons]
    exact getLast?_map_fn g (y :: t)

theorem filterMap_adjPairs_getLast {α β : Type} (f : α × α → Option β) :
    ∀ (xs : List α) (r : β),
      ((adjPairs xs).filterMap f).getLast? = some r →
      ∃ X a b Y, xs = X ++ a :: b :: Y ∧ f (a, b) = some r ∧
        (adjPairs (b :: Y)).filterMap f = [] := by
  intro xs
  induction xs with
  | nil => intro r h; simp [adjPairs] at h
  | cons x xs ih =>
    intro r h
    cases xs with
    | nil => simp [adjPairs] at h
    | cons y t =>
      rw [adjPairs] at h
      cases hfxy : f (x, y) with
      | none =>
        simp only [List.filterMap_cons, hfxy] at h
        obtain ⟨X, a, b, Y, hd, hf, hrest⟩ := ih r h
        exact ⟨x :: X, a, b, Y, by rw [hd]; rfl, hf, hrest⟩
      | some r0 =>
        simp only [List.filterMap_cons, hfxy] at h
        cases htl : (adjPairs (y :: t)).filterMap f with
        | nil =>
          rw [htl] at h
          cases h
          exact ⟨[], x, y, t, rfl, hfxy, htl⟩
        | cons s ss =>
          rw [htl, List.getLast?_cons_cons, ← htl] at h
          obtain ⟨X, a, b, Y, hd, hf, hrest⟩ := ih r h
          exact ⟨x :: X, a, b, Y, by rw [hd]; rfl, hf, hrest⟩

theorem nodup_fresh {α β : Type} (g : α → β) (L : List α) (a : α) (R : List α)
    (h : ((L ++ a :: R).map g).Nodup) : ∀ x ∈ L, g x ≠ g a := by
  intro x hx heq
  rw [List.map_append, List.nodup_append] at h
  obtain ⟨-, -, hdisj⟩ := h
  exact hdisj (List.mem_map_of_mem g hx)
    (heq ▸ List.mem_map_of_mem g (List.mem_cons_self a R))

theorem resumeAfterMatch_suffix (f : String) :
    ∀ (leads rest : List Lead), resumeAfterMatch f leads = some rest →
    ∃ pre, leads = pre ++ rest := by
  intro leads
  induction leads with
  | nil => intro rest h; cases h
  | cons l ls ih =>
    intro rest h
    simp only [resumeAfterMatch] at h
    by_cases hf : l.fileNumber = f
    · rw [if_pos hf] at h
      cases h
      exact ⟨[l], rfl⟩
    · rw [if_neg hf] at h
      obtain ⟨pre, hp⟩ := ih rest h
      exact ⟨l :: pre, by rw [hp]; rfl⟩

theorem resumeFilter_suffix (last : Option String) (leads : List Lead) :
    ∃ pre, leads = pre ++ resumeFilter last leads := by
  cases last with
  | none => exact ⟨[], rfl⟩
  | some f =>
    by_cases hf : f = ""
    · exact ⟨[], by simp [resumeFilter, hf]⟩
    · cases hm : resumeAfterMatch f leads with
      | none => exact ⟨[], by simp [resumeFilter, hf, hm]⟩
      | some rest =>
        obtain ⟨pre, hp⟩ := resumeAfterMatch_suffix f leads rest hm
        exact ⟨pre, by simpa [resumeFilter, hf, hm] using hp⟩

theorem resumeAfterMatch_append (a : Lead) :
    ∀ (L R : List Lead), (∀ x ∈ L, x.fileNumber ≠ a.fileNumber) →
    resumeAfterMatch a.fileNumber (L ++ a :: R) = some R := by
  intro L
  induction L with
  | nil => intro R _; simp [resumeAfterMatch]
  | cons x xs ih =>
    intro R hfresh
    have hx : x.fileNumber ≠ a.fileNumber := hfresh x (by simp)
    simp only [List.cons_append, resumeAfterMatch, if_neg hx]
    exact ih R (fun y hy => hfresh y (List.mem_cons_of_mem x hy))

theorem lastFile_append (name : String) (sheet cs : List LeadRec)
    (hsrc : ∀ x ∈ cs, x.source = name) (r : LeadRec) (hlast : cs.getLast? = some r) :
    getLastProcessedFileNumberBySource name (sheet ++ cs) = some r.fileNumber := by
  have hcsne : cs ≠ [] := by intro h; rw [h] at hlast; cases hlast
  unfold getLastProcessedFileNumberBySource
  rw [List.filter_append]
  have hfcs : List.filter (fun x => decide (x.source = name)) cs = cs :=
    List.filter_eq_self.mpr (fun a ha => by simp [hsrc a ha])
  rw [hfcs, List.map_append]
  have hmapne : cs.map (fun x => x.fileNumber) ≠ [] := by simp [hcsne]
  rw [List.getLast?_append_of_ne_nil _ hmapne, getLast?_map_fn, hlast]
  rfl

/-- C1: in `run_lead_processing`, the commit decision for lead `i` is a
function of lead `i+1`'s enrichment (the adjacent-pair characterisation), so
only records of leads `1..n-1` can reach `appendToSheet` — every committed
record originates from a lead that has a successor in the scraped list — and
for `n ≤ 1` nothing is committed. -/
theorem C1_one_step_delayed_commit
    (enrich : String → String → String → LookupOutcome) (name : String)
    (leads : List Lead) :
    processSource enrich name leads
      = (adjPairs leads).filterMap (commitStep enrich name)
    ∧ (leads.length ≤ 1 → processSource enrich name leads = [])
    ∧ (∀ r ∈ processSource enrich name leads,
        ∃ pre a b post, leads = pre ++ a :: b :: post ∧
          r.fileNumber = a.fileNumber ∧ r.saleDate = a.saleDate ∧
          r.address = a.property) := by
  refine ⟨processSource_eq enrich name leads, ?_, ?_⟩
  · intro h
    match leads, h with
    | [], _ => rfl
    | [l], _ => rfl
  · intro r hr
    rw [processSource_eq] at hr
    obtain ⟨p, hpmem, hstep⟩ := List.mem_filterMap.mp hr
    obtain ⟨pre, post, hsplit⟩ := adjPairs_mem_split _ _ hpmem
    obtain ⟨h1, h2, h3, -⟩ := commitStep_some_proj enrich name p r hstep
    exact ⟨pre, p.1, p.2, post, hsplit, h1, h2, h3⟩

/-- Witness for C1 at a one-element run: with a single scraped lead nothing
is committed. -/
theorem C1_one_step_delayed_commit_witness :
    ([leadA].length ≤ 1) ∧ processSource enrichHigh "Brock & Scott" [leadA] = [] :=
  ⟨by decide,
   (C1_one_step_delayed_commit enrichHigh "Brock & Scott" [leadA]).2.1 (by decide)⟩

/-- C2 (implicit): every committed record's enrichment columns come from the
lookup of the lead scraped immediately after it — at iteration `i` the lookup
for lead `i`'s address is written into the buffered record of lead `i-1`
(main.py lines 95-112) — so a committed record for lead `a` carries the
equity, owner names and failure flag returned for the successor lead `b`. -/
theorem C2_enrichment_written_to_previous_record
    (enrich : String → String → String → LookupOutcome) (name : String)
    (leads : List Lead) :
    ∀ r ∈ processSource enrich name leads,
      ∃ pre a b post, leads = pre ++ a :: b :: post ∧
        r.fileNumber = a.fileNumber ∧ r.address = a.property ∧
        r.estValue = some (leadLookup enrich b).equity ∧
        r.firstName = (leadLookup enrich b).firstName ∧
        r.lastName = (leadLookup enrich b).lastName ∧
        ((leadLookup enrich b).lookupFailed = true → r.error = "Try again") := by
  intro r hr
  rw [processSource_eq] at hr
  obtain ⟨p, hpmem, hstep⟩ := List.mem_filterMap.mp hr
  obtain ⟨pre, post, hsplit⟩ := adjPairs_mem_split _ _ hpmem
  obtain ⟨h1, -, h3, -, h5, h6, h7, h8⟩ := commitStep_some_proj enrich name p r hstep
  exact ⟨pre, p.1, p.2, post, hsplit, h1, h3, h5, h6, h7, h8⟩

/-- Witness for C2: in a concrete two-lead run, the committed record for
`leadA` carries the enrichment returned for `leadB`'s address. -/
theorem C2_enrichment_written_to_previous_record_witness :
    recAB ∈ processSource enrichHigh "Brock & Scott" [leadA, leadB] ∧
    ∃ pre a b post, [leadA, leadB] = pre ++ a :: b :: post ∧
      recAB.fileNumber = a.fileNumber ∧ recAB.address = a.property ∧
      recAB.estValue = some (leadLookup enrichHigh b).equity ∧
      recAB.firstName = (leadLookup enrichHigh b).firstName ∧
      recAB.lastName = (leadLookup enrichHigh b).lastName ∧
      ((leadLookup enrichHigh b).lookupFailed = true → recAB.error = "Try again") :=
  ⟨by decide,
   C2_enrichment_written_to_previous_record enrichHigh "Brock & Scott"
     [leadA, leadB] recAB (by decide)⟩

/-- C3: a buffered record reaching the commit decision is appended
unconditionally when its error field is non-empty, and otherwise exactly when
its `estValue` is at least 100000; concretely, `estValue = 99999.99` with no
error is not committed, `estValue = 100000.00` is, and a record with error
"timeout" and `estValue = 0.0` is committed regardless. -/
theorem C3_qualification_threshold :
    (∀ (r : LeadRec) (v : Rat), r.estValue = some v →
      (shouldCommit r = true ↔ (r.error ≠ "" ∨ v ≥ 100000)))
    ∧ shouldCommit recBelowThreshold = false
    ∧ shouldCommit recAtThreshold = true
    ∧ shouldCommit recErrorZero = true := by
  refine ⟨?_, by decide, by decide, by decide⟩
  intro r v h
  by_cases he : r.error = "" <;> simp [shouldCommit, he, h]

/-- Witness for C3 at the threshold record: its `estValue` is present and
the decision coincides with the disjunction. -/
theorem C3_qualification_threshold_witness :
    recAtThreshold.estValue = some (mkRat 10000000 100) ∧
    (shouldCommit recAtThreshold = true ↔
      (recAtThreshold.error ≠ "" ∨ (mkRat 10000000 100) ≥ 100000)) :=
  ⟨rfl, C3_qualification_threshold.1 recAtThreshold (mkRat 10000000 100) rfl⟩

/-- C4 counterexample: a lookup in which every attempt fails to parse
(equity `None`, owner `""` on all three searches) returns the failure
sentinel `(0.0, 0.0, "", "")` normally, so the orchestrator's
`lookup_failed` stays false and the outgoing record's error flag is left
empty — refuting "any failure ... with the error flag populated on the
outgoing record" for the parse-failure case. -/
theorem C4_error_flag_counterexample :
    get_estimates pageEnvAllFail leadA.property leadA.city leadA.zip = (0, 0, "", "")
    ∧ (leadLookup fetchParseFail leadA).lookupFailed = false
    ∧ (mkRec "Brock & Scott" leadA (leadLookup fetchParseFail leadA).lookupFailed).error
        = "" := by
  exact ⟨by decide, rfl, rfl⟩

/-- C4 (amended): the orchestrator's enrichment step is total on lookup
outcomes — an exception raised by `fetchPropStreamEstimates` is caught at
main.py lines 100-104 and yields equity 0.0, empty owner names and error
"Try again" on the outgoing record, and a normal return never sets the
failure flag; inside `get_estimates`, an all-attempt parse failure yields
the sentinel `(0.0, 0.0, "", "")` without raising (and hence, unlike what
the claim states, with the record's error flag left empty). -/
theorem C4_lookup_failure_sentinel :
    (∀ msg : String, lookupParts (.raised msg) = ⟨0, "", "", true⟩)
    ∧ (∀ (name : String) (lead : Lead) (failed : Bool), failed = true →
        (mkRec name lead failed).error = "Try again")
    ∧ (∀ (env : PageEnv) (a c z : String),
        (∀ x y w, env x y w = (none, "")) →
        get_estimates env a c z = (0, 0, "", ""))
    ∧ (∀ (eq ev : Rat) (fn ln : String),
        (lookupParts (.ok eq ev fn ln)).lookupFailed = false) := by
  refine ⟨fun msg => rfl, ?_, ?_, fun eq ev fn ln => rfl⟩
  · intro name lead failed h
    subst h
    rfl
  · intro env a c z h
    simp [get_estimates, geLoop, h]
    decide

/-- Witness for C4 (amended) at concrete inputs: a raised lookup marks the
record "Try again", and the all-failing page environment yields the
sentinel. -/
theorem C4_lookup_failure_sentinel_witness :
    ((true : Bool) = true ∧ (mkRec "Brock & Scott" leadA true).error = "Try again")
    ∧ ((∀ x y w : String, pageEnvAllFail x y w = ((none : Option Rat), ""))
        ∧ get_estimates pageEnvAllFail "100 Oak St" "Atlanta" "30301" = (0, 0, "", "")) :=
  ⟨⟨rfl, C4_lookup_failure_sentinel.2.1 "Brock & Scott" leadA true rfl⟩,
   ⟨fun _ _ _ => rfl,
    C4_lookup_failure_sentinel.2.2.1 pageEnvAllFail "100 Oak St" "Atlanta" "30301"
      (fun _ _ _ => rfl)⟩⟩

/-- C5 counterexample: the resume mechanism cannot represent an
empty-string file number (Python `if last:` truthiness), so when the last
committed record's lead has `fileNumber = ""` — as every ServiceLink lead
does — the second run over the unchanged listing set re-commits the same
row, appending a new sheet row. -/
theorem C5_idempotent_resume_counterexample :
    runSource enrichHigh "ServiceLink Auction"
        (runSource enrichHigh "ServiceLink Auction" [] [leadE, leadB]) [leadE, leadB]
      ≠ runSource enrichHigh "ServiceLink Auction" [] [leadE, leadB] := by
  decide

/-- C5 (amended): running one source's harvest twice against an unchanged
upstream listing set with deterministic enrichment commits zero additional
rows the second time, provided the scraped leads carry pairwise-distinct,
non-empty file numbers (the resume key the code relies on). -/
theorem C5_idempotent_resume
    (enrich : String → String → String → LookupOutcome) (name : String)
    (sheet : List LeadRec) (leads : List Lead)
    (hnodup : (leads.map (fun l => l.fileNumber)).Nodup)
    (hne : ∀ l ∈ leads, l.fileNumber ≠ "") :
    runSource enrich name (runSource enrich name sheet leads) leads
      = runSource enrich name sheet leads := by
  have hrun1 : runSource enrich name sheet leads
      = sheet ++ processSource enrich name
          (resumeFilter (getLastProcessedFileNumberBySource name sheet) leads) := rfl
  cases hcse : (processSource enrich name
      (resumeFilter (getLastProcessedFileNumberBySource name sheet) leads)).getLast? with
  | none =>
    have hnil : processSource enrich name
        (resumeFilter (getLastProcessedFileNumberBySource name sheet) leads) = [] :=
      List.getLast?_eq_none_iff.mp hcse
    simp only [hrun1, hnil, List.append_nil]
  | some r =>
    have hsrc : ∀ x ∈ processSource enrich name
        (resumeFilter (getLastProcessedFileNumberBySource name sheet) leads),
        x.source = name := by
      intro x hx
      rw [processSource_eq] at hx
      obtain ⟨p, -, hp⟩ := List.mem_filterMap.mp hx
      exact (commitStep_some_proj enrich name p x hp).2.2.2.1
    have hlast2 : getLastProcessedFileNumberBySource name
        (sheet ++ processSource enrich name
          (resumeFilter (getLastProcessedFileNumberBySource name sheet) leads))
        = some r.fileNumber :=
      lastFile_append name sheet _ hsrc r hcse
    have hflm : ((adjPairs
        (resumeFilter (getLastProcessedFileNumberBySource name sheet) leads)).filterMap
          (commitStep enrich name)).getLast? = some r := by
      rw [← processSource_eq]
      exact hcse
    obtain ⟨X, a, b, Y, hdecomp, hfab, hrest⟩ :=
      filterMap_adjPairs_getLast (commitStep enrich name) _ r hflm
    obtain ⟨pre1, hpre1⟩ :=
      resumeFilter_suffix (getLastProcessedFileNumberBySource name sheet) leads
    have hleadsd : leads = (pre1 ++ X) ++ a :: b :: Y := by
      rw [hpre1, hdecomp, List.append_assoc]
    have hane : a.fileNumber ≠ "" := hne a (by rw [hleadsd]; simp)
    have hfresh : ∀ x ∈ pre1 ++ X, x.fileNumber ≠ a.fileNumber :=
      nodup_fresh (fun l => l.fileNumber) (pre1 ++ X) a (b :: Y)
        (by rw [← hleadsd]; exact hnodup)
    have hfile : r.fileNumber = a.fileNumber :=
      (commitStep_some_proj enrich name (a, b) r hfab).1
    have hresume2 : resumeFilter (some r.fileNumber) leads = b :: Y := by
      rw [hfile]
      show resumeFilter (some a.fileNumber) leads = b :: Y
      simp only [resumeFilter]
      rw [if_neg hane, hleadsd,
        resumeAfterMatch_append a (pre1 ++ X) (b :: Y) hfresh]
    have hcommits2 : processSource enrich name (b :: Y) = [] := by
      rw [processSource_eq]
      exact hrest
    conv_lhs => rw [hrun1]
    show (sheet ++ processSource enrich name
        (resumeFilter (getLastProcessedFileNumberBySource name sheet) leads))
      ++ processSource enrich name
        (resumeFilter (getLastProcessedFileNumberBySource name
          (sheet ++ processSource enrich name
            (resumeFilter (getLastProcessedFileNumberBySource name sheet) leads)))
          leads)
      = runSource enrich name sheet leads
    rw [hlast2, hresume2, hcommits2, List.append_nil, hrun1]

/-- Witness for C5 (amended) at a concrete two-lead run with distinct
non-empty file numbers: the second run appends nothing. -/
theorem C5_idempotent_resume_witness :
    (([leadA, leadB].map (fun l => l.fileNumber)).Nodup
      ∧ (∀ l ∈ [leadA, leadB], l.fileNumber ≠ ""))
    ∧ runSource enrichHigh "Brock & Scott"
        (runSource enrichHigh "Brock & Scott" [] [leadA, leadB]) [leadA, leadB]
      = runSource enrichHigh "Brock & Scott" [] [leadA, leadB] :=
  ⟨⟨by decide, by decide⟩,
   C5_idempotent_resume enrichHigh "Brock & Scott" [] [leadA, leadB]
     (by decide) (by decide)⟩

/-- C6 counterexample: on the first spec test input, which carries the city
as its own comma segment, the code's parser does not return
`("123 Main St", "Springfield", "30303")` — it returns
`("123 Main", "St", "Springfield")`. -/
theorem C6_address_parsing_counterexample :
    brockParseAddress "123 Main St, Springfield, GA 30303"
      = ("123 Main", "St", "Springfield")
    ∧ brockParseAddress "123 Main St, Springfield, GA 30303"
      ≠ ("123 Main St", "Springfield", "30303") := by
  exact ⟨by decide, by decide⟩

/-- C6 (amended): the two comma-free inputs parse as the spec claims
(property "123 Main St", city "Springfield", empty zip); the comma input
"123 Main St, Springfield, GA 30303" instead yields property "123 Main",
city "St" and zip "Springfield", because the comma branch takes the zip from
the second comma segment (not the trailing one) and, with no 2+-space run in
the first segment, the city from the last single-space split. -/
theorem C6_address_parsing_amended :
    brockParseAddress "123 Main St, Springfield, GA 30303"
      = ("123 Main", "St", "Springfield")
    ∧ brockParseAddress "123 Main St   Springfield"
      = ("123 Main St", "Springfield", "")
    ∧ brockParseAddress "123 Main St Springfield"
      = ("123 Main St", "Springfield", "") := by
  exact ⟨by decide, by decide, by decide⟩

/-- C7: the owner-name splitter short-circuits entity names to `("", "")`,
splits all-caps deed-style names as LAST FIRST MIDDLE with title-casing, and
splits comma-form names as LAST, FIRST MIDDLE. -/
theorem C7_owner_splitter_cases :
    splitOwnerHard "Acme Holdings LLC" = ("", "")
    ∧ splitOwnerHard "EVANS KATIE J" = ("Katie", "Evans")
    ∧ splitOwnerHard "Evans, Katie J" = ("Katie", "Evans") := by
  exact ⟨by decide, by decide, by decide⟩

/-- C8: with a loaded ledger, once `T` (`SL_STOP_AFTER_CONSEC_SEEN`)
consecutive scraped leads have keys already in the ledger, the ServiceLink
harvester stops scraping entirely — discarding the rest of the current page
and every later page — and returns exactly the new (not-yet-known) leads
collected before that run; an unknown key resets the consecutive counter;
when no ledger could be loaded there is no early stop and every scraped lead
is returned. -/
theorem C8_consecutive_seen_early_stop :
    (∀ (T : Nat) (mode : String) (pages : List (List Lead)),
      harvestServiceLinkAuction T mode none pages = pages.flatten)
    ∧ (∀ (T : Nat) (mode : String) (ex : List String) (pages : List (List Lead))
        (pre run rest : List Lead) (c : Nat),
        pages.flatten = pre ++ run ++ rest →
        slCounter T (fun l => ex.contains (slKeyFor mode l)) 0 pre = some c →
        (∀ l ∈ run, ex.contains (slKeyFor mode l) = true) →
        run ≠ [] → c + run.length = T →
        harvestServiceLinkAuction T mode (some ex) pages
          = pre.filter (fun l => !(ex.contains (slKeyFor mode l))))
    ∧ (∀ (T : Nat) (mode : String) (ex : List String) (pages : List (List Lead))
        (c : Nat),
        slCounter T (fun l => ex.contains (slKeyFor mode l)) 0 pages.flatten = some c →
        harvestServiceLinkAuction T mode (some ex) pages
          = pages.flatten.filter (fun l => !(ex.contains (slKeyFor mode l))))
    ∧ (∀ (T : Nat) (known : Lead → Bool) (c : Nat) (l : Lead) (ls : List Lead),
        known l = false →
        slScan T known c (l :: ls) = l :: slScan T known 0 ls) := by
  refine ⟨?_, ?_, ?_, ?_⟩
  · intro T mode pages
    show slPageLoop T false [] mode pages 0 = pages.flatten
    rw [slPageLoop_scan]
    exact slScan_const_false T _ (fun l => rfl) 0 pages.flatten
  · intro T mode ex pages pre run rest c hflat hcnt hall hne hlen
    show slPageLoop T true ex mode pages 0 = _
    rw [slPageLoop_scan]
    simp only [Bool.true_and]
    rw [hflat, List.append_assoc,
      slScan_append_of_counter T _ pre 0 c hcnt (run ++ rest),
      slScan_run_stop T _ run c rest hne hall hlen, List.append_nil]
  · intro T mode ex pages c hcnt
    show slPageLoop T true ex mode pages 0 = _
    rw [slPageLoop_scan]
    simp only [Bool.true_and]
    have h := slScan_append_of_counter T
      (fun l => ex.contains (slKeyFor mode l)) pages.flatten 0 c hcnt []
    rw [List.append_nil] at h
    rw [h]
    simp [slScan]
  · intro T known c l ls hk
    simp [slScan, hk]

/-- Witness for C8 at a concrete run: ledger keys for `leadA`/`leadB`, two
pages, threshold 2 — the harvest stops inside the run `[leadA, leadB]` and
returns only the fresh `leadE` scraped before it. -/
theorem C8_consecutive_seen_early_stop_witness :
    (slPages.flatten = [leadE] ++ [leadA, leadB] ++ [leadE]
      ∧ slCounter 2 (fun l => slExisting.contains (slKeyFor "property" l)) 0 [leadE]
          = some 0
      ∧ (∀ l ∈ [leadA, leadB],
          slExisting.contains (slKeyFor "property" l) = true)
      ∧ ([leadA, leadB] : List Lead) ≠ [] ∧ 0 + [leadA, leadB].length = 2)
    ∧ harvestServiceLinkAuction 2 "property" (some slExisting) slPages
        = [leadE].filter (fun l => !(slExisting.contains (slKeyFor "property" l))) :=
  ⟨⟨by decide, by decide, by decide, by decide, by decide⟩,
   C8_consecutive_seen_early_stop.2.1 2 "property" slExisting slPages
     [leadE] [leadA, leadB] [leadE] 0
     (by decide) (by decide) (by decide) (by decide) (by decide)⟩

/-- C9: `appendToSheet` succeeds immediately on a clean append; on an
auth-expiry failure it re-authenticates, rebuilds the service and retries
exactly once; a failed re-authentication or a second auth expiry ends the
run fatally (`sys.exit(1)`) instead of dropping the row; and no run makes
more than two append attempts. -/
theorem C9_append_retry_semantics :
    (∀ (s : AppendAttempt) (b : Bool),
      appendToSheet .ok s b = ⟨.success, 1, false, false⟩)
    ∧ appendToSheet .refreshError .ok true = ⟨.success, 2, true, true⟩
    ∧ appendToSheet .refreshError .refreshError true = ⟨.fatalExit, 2, true, true⟩
    ∧ (∀ s : AppendAttempt,
        appendToSheet .refreshError s false = ⟨.fatalExit, 1, true, false⟩)
    ∧ (∀ (f s : AppendAttempt) (b : Bool), (appendToSheet f s b).attempts ≤ 2) := by
  refine ⟨fun s b => rfl, rfl, rfl, fun s => rfl, ?_⟩
  intro f s b
  cases f <;> cases s <;> cases b <;> decide

/-- C10 counterexample: on a concrete committed record the row written by
`appendToSheet` differs from the column order the spec claims (the owner
names come second and third, not after the equity estimate). -/
theorem C10_column_order_counterexample :
    appendRow recAB ≠ claimedRowOrder recAB := by
  decide

/-- C10 (amended): every appended row has the fixed column order sale date,
owner first name, owner last name, file number, street address, city, zip,
county, bid, equity estimate, source identifier, error flag. -/
theorem C10_column_order_amended (r : LeadRec) :
    appendRow r =
      [ .str r.saleDate,
        .str r.firstName,
        .str r.lastName,
        .str r.fileNumber,
        .str r.address,
        .str r.city,
        .str r.zip,
        .str r.county,
        .str r.bid,
        (match r.estValue with
         | some v => Cell.num v
         | none => Cell.str ""),
        .str r.source,
        .str r.error ] := rfl

end LeadBots
